import Mathlib

/-!
Shallow embedding of `lightning/src/util/anchor_channel_reserves.rs`.

Machine integers (`u64` amounts and weights, `u16` HTLC counts) are modelled
as `Nat`; the checked/saturating operations of the source are modelled
explicitly against the `u64` bound `2 ^ 64 - 1`, matching
`Amount::checked_add(..).unwrap_or(Amount::MAX)` and
`Amount::checked_sub(..).unwrap_or(Amount::MIN)` with
`Amount::MAX = u64::MAX` satoshis and `Amount::MIN = 0`.
-/

/-- The largest value representable by a `u64` (`Amount::MAX` in satoshis). -/
def U64MAX : Nat := 2 ^ 64 - 1

/-- Models `a.checked_add(b).unwrap_or(Amount::MAX)` on `u64` satoshi amounts. -/
def satAdd (a b : Nat) : Nat := if a + b ≤ U64MAX then a + b else U64MAX

/-- Models `a.checked_sub(b).unwrap_or(Amount::MIN)` on `u64` satoshi amounts:
`checked_sub` is `none` exactly when `b > a`, and `Amount::MIN` is zero, which
is truncated `Nat` subtraction. -/
def satSub (a b : Nat) : Nat := a - b

/-- Modelled from the spec: `FeeRate::fee_wu(weight).unwrap_or(Amount::MAX)` of
the `bitcoin` dependency (not part of this repository). The fee rate is an
integer number of satoshis per 1000 weight units; the fee is the rate times the
weight converted to whole satoshis by integer division, saturating to
`Amount::MAX` when the `u64` multiplication overflows. -/
def fee_wu (rate weight : Nat) : Nat :=
  if rate * weight ≤ U64MAX then rate * weight / 1000 else U64MAX

-- Constants from `anchor_channel_reserves.rs`, with the arithmetic of the
-- source's constant expressions carried out over `Nat`.
def WITNESS_SCALE_FACTOR : Nat := 4

def COMMITMENT_TRANSACTION_BASE_WEIGHT : Nat := 900 + 224

def COMMITMENT_TRANSACTION_PER_HTLC_WEIGHT : Nat := 172

def PER_HTLC_TIMEOUT_WEIGHT : Nat := 666

def PER_HTLC_SUCCESS_WEIGHT : Nat := 706

def TRANSACTION_BASE_WEIGHT : Nat := (4 + 4 + 1 + 1) * WITNESS_SCALE_FACTOR + 2

def P2WPKH_INPUT_WEIGHT : Nat :=
  (36 + 4 + 1) * WITNESS_SCALE_FACTOR + (1 + 1 + 72 + 1 + 33)

def P2WPKH_OUTPUT_WEIGHT : Nat := (8 + 1 + 22) * WITNESS_SCALE_FACTOR

def P2TR_INPUT_WEIGHT : Nat := (36 + 4 + 1) * WITNESS_SCALE_FACTOR + (1 + 1 + 64)

def P2TR_OUTPUT_WEIGHT : Nat := (8 + 1 + 34) * WITNESS_SCALE_FACTOR

def ANCHOR_INPUT_WEIGHT : Nat :=
  (36 + 4 + 1) * WITNESS_SCALE_FACTOR + (1 + 1 + 72 + 1 + 40)

/-- `AnchorChannelReserveContext`: `upper_bound_fee_rate` is a `FeeRate` in
satoshis per 1000 weight units (`u64`), `expected_accepted_htlcs` a `u16`. -/
structure AnchorChannelReserveContext where
  upper_bound_fee_rate : Nat
  expected_accepted_htlcs : Nat
  taproot_wallet : Bool
deriving DecidableEq

/-- The `value` field of a `bitcoin::TxOut` in satoshis; the `script_pubkey`
field plays no part in any computation of this module and is omitted. -/
structure TxOut where
  value : Nat
deriving DecidableEq

/-- `events::bump_transaction::Utxo`: the `outpoint` is an opaque identifier
that the computations never inspect. -/
structure Utxo where
  outpoint : Nat
  output : TxOut
  satisfaction_weight : Nat
deriving DecidableEq

def htlc_success_transaction_weight (context : AnchorChannelReserveContext) : Nat :=
  PER_HTLC_SUCCESS_WEIGHT
    + if context.taproot_wallet then
        P2TR_INPUT_WEIGHT + P2TR_OUTPUT_WEIGHT
      else
        P2WPKH_INPUT_WEIGHT + P2WPKH_OUTPUT_WEIGHT

def htlc_timeout_transaction_weight (context : AnchorChannelReserveContext) : Nat :=
  PER_HTLC_TIMEOUT_WEIGHT
    + if context.taproot_wallet then
        P2TR_INPUT_WEIGHT + P2TR_OUTPUT_WEIGHT
      else
        P2WPKH_INPUT_WEIGHT + P2WPKH_OUTPUT_WEIGHT

def anchor_output_spend_transaction_weight (context : AnchorChannelReserveContext) : Nat :=
  TRANSACTION_BASE_WEIGHT
    + ANCHOR_INPUT_WEIGHT
    + if context.taproot_wallet then
        P2TR_INPUT_WEIGHT + P2TR_OUTPUT_WEIGHT
      else
        P2WPKH_INPUT_WEIGHT + P2WPKH_OUTPUT_WEIGHT

/-- `get_reserve_per_channel`: the total weight of the commitment transaction
(base plus twice the per-HTLC weight per expected HTLC), the anchor output
spend transaction, and one HTLC-success and one HTLC-timeout transaction per
expected HTLC, converted to a fee at the upper bound fee rate. -/
def get_reserve_per_channel (context : AnchorChannelReserveContext) : Nat :=
  fee_wu context.upper_bound_fee_rate
    (COMMITMENT_TRANSACTION_BASE_WEIGHT
      + 2 * context.expected_accepted_htlcs * COMMITMENT_TRANSACTION_PER_HTLC_WEIGHT
      + anchor_output_spend_transaction_weight context
      + htlc_success_transaction_weight context * context.expected_accepted_htlcs
      + htlc_timeout_transaction_weight context * context.expected_accepted_htlcs)

/-- One iteration of the loop in `get_supportable_anchor_channels`: the
accumulator carries `(num_whole_utxos, total_fractional_amount)`. A UTXO worth
at least the reserve counts as a whole UTXO; otherwise its value is added to
the fractional total with a saturating add, and its satisfaction fee at the
upper bound fee rate is then subtracted with a saturating sub. -/
def alloc_step (rate reserve : Nat) (acc : Nat × Nat) (utxo : Utxo) : Nat × Nat :=
  if reserve ≤ utxo.output.value then
    (acc.1 + 1, acc.2)
  else
    (acc.1, satSub (satAdd acc.2 utxo.output.value) (fee_wu rate utxo.satisfaction_weight))

def alloc_fold (rate reserve : Nat) (utxos : List Utxo) : Nat × Nat :=
  utxos.foldl (alloc_step rate reserve) (0, 0)

def num_whole_utxos (context : AnchorChannelReserveContext) (utxos : List Utxo) : Nat :=
  (alloc_fold context.upper_bound_fee_rate (get_reserve_per_channel context) utxos).1

def total_fractional_amount (context : AnchorChannelReserveContext) (utxos : List Utxo) : Nat :=
  (alloc_fold context.upper_bound_fee_rate (get_reserve_per_channel context) utxos).2

/-- `get_supportable_anchor_channels`: whole UTXOs plus the fractional total
divided by the reserve and then by two, both integer divisions. The source
performs `total_fractional_amount.to_sat() / reserve_per_channel.to_sat() / 2`
with no guard, and `u64` division by zero panics in Rust; the panic on a zero
reserve is modelled as `none`. -/
def get_supportable_anchor_channels
    (context : AnchorChannelReserveContext) (utxos : List Utxo) : Option Nat :=
  let reserve := get_reserve_per_channel context
  if reserve = 0 then
    none
  else
    some (num_whole_utxos context utxos + total_fractional_amount context utxos / reserve / 2)

/-- The fractional total as claim C3 describes it: over the UTXOs whose value
is strictly below the per-channel reserve, the sum of the per-UTXO
contributions `max(value - fee_wu(rate, satisfaction_weight), 0)` (truncated
`Nat` subtraction). -/
def total_fractional_spec (context : AnchorChannelReserveContext) (utxos : List Utxo) : Nat :=
  ((utxos.filter
      (fun u => decide (u.output.value < get_reserve_per_channel context))).map
    (fun u => u.output.value - fee_wu context.upper_bound_fee_rate u.satisfaction_weight)).sum

/-- The view of a `ChannelMonitor` that the census reads: whether the
negotiated channel type supports zero-fee-HTLC anchors, and the list of
claimable balances (only emptiness is inspected; balances are opaque). -/
structure MonitorView where
  supports_anchors_zero_fee_htlc_tx : Bool
  claimable_balances : List Nat

/-- The `ChainMonitor` collaborator: `list_monitors` yields
`(outpoint, channel_id)` pairs (both opaque identifiers), and `get_monitor`
either retrieves the monitor for an outpoint or fails (`none` models `Err`). -/
structure ChainMonitorModel where
  monitors : List (Nat × Nat)
  get_monitor : Nat → Option MonitorView

/-- The `ChannelDetails` of a channel listed by the channel manager: only the
`channel_type` option (`none` while negotiation is unfinished) is read. -/
structure ChannelDetails where
  channel_type : Option Nat

/-- The `ChannelManager` collaborator: `list_channels`. -/
structure ChannelManagerModel where
  channels : List ChannelDetails

/-- Models `HashSet::insert` on a list representing a set of channel ids:
inserting an element already present leaves the set unchanged. -/
def hash_set_insert (s : List Nat) (x : Nat) : List Nat :=
  if x ∈ s then s else x :: s

/-- One iteration of the monitor loop of `can_support_additional_anchor_channel`:
a monitor that cannot be retrieved is skipped (`continue`); a retrieved monitor
whose channel type supports zero-fee-HTLC anchors and which has at least one
claimable balance has its channel id inserted into the set. -/
def census_step (get_mon : Nat → Option MonitorView) (s : List Nat)
    (oc : Nat × Nat) : List Nat :=
  match get_mon oc.1 with
  | none => s
  | some m =>
    if m.supports_anchors_zero_fee_htlc_tx && !m.claimable_balances.isEmpty then
      hash_set_insert s oc.2
    else
      s

/-- The set `anchor_channels_with_balance` built by the monitor loop. -/
def anchor_channels_with_balance (mon : ChainMonitorModel) : List Nat :=
  mon.monitors.foldl (census_step mon.get_monitor) []

/-- `num_anchor_channels`: the size of the monitor-derived set plus the number
of channels listed by the manager whose channel type is not yet finalized. -/
def num_anchor_channels (mgr : ChannelManagerModel) (mon : ChainMonitorModel) : Nat :=
  (anchor_channels_with_balance mon).length
    + (mgr.channels.filter (fun c => c.channel_type.isNone)).length

/-- `can_support_additional_anchor_channel`: whether the supportable channel
count strictly exceeds the census count. The `none` case propagates the
division-by-zero panic of `get_supportable_anchor_channels`. -/
def can_support_additional_anchor_channel (context : AnchorChannelReserveContext)
    (utxos : List Utxo) (mgr : ChannelManagerModel) (mon : ChainMonitorModel) :
    Option Bool :=
  (get_supportable_anchor_channels context utxos).map
    (fun n => decide (num_anchor_channels mgr mon < n))

/-- Whether a listed `(outpoint, channel_id)` pair qualifies for the census as
claim C5 describes it: the monitor is retrievable, its channel type supports
zero-fee-HTLC anchors, and it reports at least one claimable balance. -/
def qualifying (get_mon : Nat → Option MonitorView) (oc : Nat × Nat) : Bool :=
  match get_mon oc.1 with
  | none => false
  | some m => m.supports_anchors_zero_fee_htlc_tx && !m.claimable_balances.isEmpty

/-- The census count as claim C5 describes it: the number of distinct channel
identifiers among qualifying monitors, plus the number of channels listed by
the manager whose channel type is `none`. -/
def census_spec (mgr : ChannelManagerModel) (mon : ChainMonitorModel) : Nat :=
  ((mon.monitors.filter (qualifying mon.get_monitor)).map Prod.snd).dedup.length
    + mgr.channels.countP (fun c => c.channel_type.isNone)

-- Helper lemmas shared by the claim theorems.

lemma alloc_fold_go (rate reserve : Nat) (utxos : List Utxo) (a b : Nat) :
    utxos.foldl (alloc_step rate reserve) (a, b) =
      (a + utxos.countP (fun u => decide (reserve ≤ u.output.value)),
        (utxos.filter (fun u => decide (u.output.value < reserve))).foldl
          (fun acc u => satSub (satAdd acc u.output.value)
            (fee_wu rate u.satisfaction_weight)) b) := by
  induction utxos generalizing a b with
  | nil => simp
  | cons u rest ih =>
    simp only [List.foldl_cons, alloc_step]
    by_cases h : reserve ≤ u.output.value
    · have hnot : ¬ u.output.value < reserve := Nat.not_lt.mpr h
      rw [if_pos h, ih]
      simp [List.countP_cons, List.filter_cons, h, hnot, Prod.ext_iff]
      omega
    · have hlt : u.output.value < reserve := Nat.not_le.mp h
      rw [if_neg h, ih]
      simp [List.countP_cons, List.filter_cons, h, hlt]

lemma num_whole_utxos_eq_countP (context : AnchorChannelReserveContext) (utxos : List Utxo) :
    num_whole_utxos context utxos =
      utxos.countP (fun u => decide (get_reserve_per_channel context ≤ u.output.value)) := by
  unfold num_whole_utxos alloc_fold
  rw [alloc_fold_go]
  simp

lemma total_fractional_amount_eq_foldl (context : AnchorChannelReserveContext)
    (utxos : List Utxo) :
    total_fractional_amount context utxos =
      (utxos.filter
          (fun u => decide (u.output.value < get_reserve_per_channel context))).foldl
        (fun acc u => satSub (satAdd acc u.output.value)
          (fee_wu context.upper_bound_fee_rate u.satisfaction_weight)) 0 := by
  unfold total_fractional_amount alloc_fold
  rw [alloc_fold_go]

lemma satFold_eq_sum (rate : Nat) (l : List Utxo) (init : Nat)
    (hfee : ∀ u ∈ l, fee_wu rate u.satisfaction_weight ≤ u.output.value)
    (hsum : init + (l.map (fun u => u.output.value)).sum ≤ U64MAX) :
    l.foldl (fun acc u => satSub (satAdd acc u.output.value)
        (fee_wu rate u.satisfaction_weight)) init
      = init + (l.map (fun u => u.output.value - fee_wu rate u.satisfaction_weight)).sum := by
  induction l generalizing init with
  | nil => simp
  | cons u rest ih =>
    have hfu : fee_wu rate u.satisfaction_weight ≤ u.output.value := hfee u (by simp)
    have hle : init + u.output.value ≤ U64MAX := by
      simp only [List.map_cons, List.sum_cons] at hsum
      omega
    have hadd : satAdd init u.output.value = init + u.output.value := by
      simp [satAdd, hle]
    have hsub : satSub (init + u.output.value) (fee_wu rate u.satisfaction_weight)
        = init + (u.output.value - fee_wu rate u.satisfaction_weight) := by
      simp only [satSub]
      omega
    simp only [List.foldl_cons, hadd, hsub, List.map_cons, List.sum_cons]
    rw [ih]
    · omega
    · intro v hv
      exact hfee v (by simp [hv])
    · simp only [List.map_cons, List.sum_cons] at hsum
      omega

lemma fee_wu_le_fee_wu {r1 w1 r2 w2 : Nat} (h : r1 * w1 ≤ r2 * w2) :
    fee_wu r1 w1 ≤ fee_wu r2 w2 := by
  unfold fee_wu
  by_cases h1 : r1 * w1 ≤ U64MAX
  · by_cases h2 : r2 * w2 ≤ U64MAX
    · simp only [h1, h2, if_pos]
      exact Nat.div_le_div_right h
    · simp only [h1, h2, if_pos, if_neg, not_false_iff]
      exact le_trans (Nat.div_le_self _ _) h1
  · have h2 : ¬ r2 * w2 ≤ U64MAX := fun hc => h1 (le_trans h hc)
    simp [h1, h2]

lemma get_reserve_per_channel_closed_form (r h : Nat) (tw : Bool) :
    get_reserve_per_channel ⟨r, h, tw⟩ =
      fee_wu r ((if tw then 1847 else 1841) + h * (if tw then 2520 else 2508)) := by
  cases tw <;>
    · simp only [get_reserve_per_channel, anchor_output_spend_transaction_weight,
        htlc_success_transaction_weight, htlc_timeout_transaction_weight,
        COMMITMENT_TRANSACTION_BASE_WEIGHT, COMMITMENT_TRANSACTION_PER_HTLC_WEIGHT,
        PER_HTLC_SUCCESS_WEIGHT, PER_HTLC_TIMEOUT_WEIGHT, TRANSACTION_BASE_WEIGHT,
        ANCHOR_INPUT_WEIGHT, P2WPKH_INPUT_WEIGHT, P2WPKH_OUTPUT_WEIGHT,
        P2TR_INPUT_WEIGHT, P2TR_OUTPUT_WEIGHT, WITNESS_SCALE_FACTOR,
        if_true, if_false, Bool.false_eq_true]
      congr 1
      ring

lemma census_step_eq (get_mon : Nat → Option MonitorView) (s : List Nat) (oc : Nat × Nat) :
    census_step get_mon s oc =
      if qualifying get_mon oc then hash_set_insert s oc.2 else s := by
  unfold census_step qualifying
  cases get_mon oc.1 <;> simp

lemma hash_set_insert_nodup {s : List Nat} (hs : s.Nodup) (x : Nat) :
    (hash_set_insert s x).Nodup := by
  unfold hash_set_insert
  split
  · exact hs
  · exact List.nodup_cons.mpr ⟨by assumption, hs⟩

lemma hash_set_insert_toFinset (s : List Nat) (x : Nat) :
    (hash_set_insert s x).toFinset = insert x s.toFinset := by
  unfold hash_set_insert
  split
  · exact (Finset.insert_eq_self.mpr (List.mem_toFinset.mpr (by assumption))).symm
  · simp

lemma census_fold_spec (get_mon : Nat → Option MonitorView) (ms : List (Nat × Nat)) :
    ∀ s : List Nat, s.Nodup →
      (ms.foldl (census_step get_mon) s).Nodup ∧
      (ms.foldl (census_step get_mon) s).toFinset =
        s.toFinset ∪ ((ms.filter (qualifying get_mon)).map Prod.snd).toFinset := by
  induction ms with
  | nil =>
    intro s hs
    simp [hs]
  | cons oc rest ih =>
    intro s hs
    simp only [List.foldl_cons, census_step_eq, List.filter_cons]
    by_cases hq : qualifying get_mon oc
    · rw [if_pos hq, if_pos hq]
      obtain ⟨hnd, hfs⟩ := ih (hash_set_insert s oc.2) (hash_set_insert_nodup hs oc.2)
      refine ⟨hnd, ?_⟩
      rw [hfs, hash_set_insert_toFinset]
      simp [Finset.insert_union, Finset.union_insert]
    · rw [if_neg hq, if_neg hq]
      obtain ⟨hnd, hfs⟩ := ih s hs
      exact ⟨hnd, hfs⟩

lemma anchor_channels_with_balance_length (mon : ChainMonitorModel) :
    (anchor_channels_with_balance mon).length =
      ((mon.monitors.filter (qualifying mon.get_monitor)).map Prod.snd).dedup.length := by
  unfold anchor_channels_with_balance
  obtain ⟨hnd, hfs⟩ := census_fold_spec mon.get_monitor mon.monitors [] List.nodup_nil
  rw [← List.toFinset_card_of_nodup hnd, hfs]
  simp [List.card_toFinset]

lemma num_anchor_channels_eq_census_spec (mgr : ChannelManagerModel)
    (mon : ChainMonitorModel) :
    num_anchor_channels mgr mon = census_spec mgr mon := by
  rw [num_anchor_channels, census_spec, anchor_channels_with_balance_length]
  simp [List.countP_eq_length_filter]

-- Claim theorems.

/-- C1: the claim states that a zero per-channel reserve (e.g. a zero upper
bound fee rate) must not cause a division by zero and that every UTXO is then
treated as supporting one whole channel. The source divides by
`reserve_per_channel.to_sat()` with no guard, and `u64` division by zero
panics in Rust, so at a zero fee rate the function diverges instead of
returning the number of UTXOs; the panic is modelled as `none`. -/
theorem get_supportable_anchor_channels_zero_reserve_bug :
    get_reserve_per_channel ⟨0, 1, false⟩ = 0 ∧
    get_supportable_anchor_channels ⟨0, 1, false⟩ [⟨0, ⟨5⟩, 10⟩] = none := by
  exact ⟨by decide, by decide⟩

/-- C2 counterexample: the result of `get_supportable_anchor_channels` is not
invariant under permutation of the UTXO list. With a reserve of 4349 sats,
three fractional UTXOs of 4348 sats and one valueless UTXO whose satisfaction
fee is 100000 sats give 0 supportable channels in one order (the saturating
subtraction clamps the accumulated total to zero at the end) but 1 in the
rotated order (the clamp fires first, on an empty total). -/
theorem get_supportable_anchor_channels_not_perm_invariant :
    List.Perm
        [(⟨0, ⟨4348⟩, 0⟩ : Utxo), ⟨0, ⟨4348⟩, 0⟩, ⟨0, ⟨4348⟩, 0⟩, ⟨1, ⟨1⟩, 100000⟩]
        [⟨1, ⟨1⟩, 100000⟩, ⟨0, ⟨4348⟩, 0⟩, ⟨0, ⟨4348⟩, 0⟩, ⟨0, ⟨4348⟩, 0⟩] ∧
    get_supportable_anchor_channels ⟨1000, 1, false⟩
        [⟨0, ⟨4348⟩, 0⟩, ⟨0, ⟨4348⟩, 0⟩, ⟨0, ⟨4348⟩, 0⟩, ⟨1, ⟨1⟩, 100000⟩] ≠
      get_supportable_anchor_channels ⟨1000, 1, false⟩
        [⟨1, ⟨1⟩, 100000⟩, ⟨0, ⟨4348⟩, 0⟩, ⟨0, ⟨4348⟩, 0⟩, ⟨0, ⟨4348⟩, 0⟩] := by
  constructor
  · decide
  · decide

/-- C2 amended: the result of `get_supportable_anchor_channels` is the same for
every permutation of the UTXO list provided the saturating clamps of the
fractional accumulator never fire: no fractional UTXO's satisfaction fee
exceeds its value, and the fractional values do not overflow `u64`. -/
theorem get_supportable_anchor_channels_perm_invariant
    (context : AnchorChannelReserveContext) (l1 l2 : List Utxo)
    (hp : List.Perm l1 l2)
    (hfee : ∀ u ∈ l1, u.output.value < get_reserve_per_channel context →
      fee_wu context.upper_bound_fee_rate u.satisfaction_weight ≤ u.output.value)
    (hsum : ((l1.filter
        (fun u => decide (u.output.value < get_reserve_per_channel context))).map
        (fun u => u.output.value)).sum ≤ U64MAX) :
    get_supportable_anchor_channels context l1 =
      get_supportable_anchor_channels context l2 := by
  have hpf := hp.filter
    (fun u => decide (u.output.value < get_reserve_per_channel context))
  have hcount := hp.countP_eq
    (fun u => decide (get_reserve_per_channel context ≤ u.output.value))
  have hfee1 : ∀ u ∈ l1.filter
      (fun u => decide (u.output.value < get_reserve_per_channel context)),
      fee_wu context.upper_bound_fee_rate u.satisfaction_weight ≤ u.output.value := by
    intro u hu
    rw [List.mem_filter] at hu
    exact hfee u hu.1 (by simpa using hu.2)
  have hfee2 : ∀ u ∈ l2.filter
      (fun u => decide (u.output.value < get_reserve_per_channel context)),
      fee_wu context.upper_bound_fee_rate u.satisfaction_weight ≤ u.output.value := by
    intro u hu
    rw [List.mem_filter] at hu
    exact hfee u (hp.mem_iff.mpr hu.1) (by simpa using hu.2)
  have hsum2 : ((l2.filter
      (fun u => decide (u.output.value < get_reserve_per_channel context))).map
      (fun u => u.output.value)).sum ≤ U64MAX :=
    (hpf.map (fun u => u.output.value)).sum_eq ▸ hsum
  have h1 : total_fractional_amount context l1 =
      0 + ((l1.filter
          (fun u => decide (u.output.value < get_reserve_per_channel context))).map
        (fun u => u.output.value
          - fee_wu context.upper_bound_fee_rate u.satisfaction_weight)).sum := by
    rw [total_fractional_amount_eq_foldl,
      satFold_eq_sum _ _ _ hfee1 (by simpa using hsum)]
  have h2 : total_fractional_amount context l2 =
      0 + ((l2.filter
          (fun u => decide (u.output.value < get_reserve_per_channel context))).map
        (fun u => u.output.value
          - fee_wu context.upper_bound_fee_rate u.satisfaction_weight)).sum := by
    rw [total_fractional_amount_eq_foldl,
      satFold_eq_sum _ _ _ hfee2 (by simpa using hsum2)]
  have hs : ((l1.filter
      (fun u => decide (u.output.value < get_reserve_per_channel context))).map
      (fun u => u.output.value
        - fee_wu context.upper_bound_fee_rate u.satisfaction_weight)).sum =
      ((l2.filter
        (fun u => decide (u.output.value < get_reserve_per_channel context))).map
      (fun u => u.output.value
        - fee_wu context.upper_bound_fee_rate u.satisfaction_weight)).sum :=
    (hpf.map _).sum_eq
  by_cases hr : get_reserve_per_channel context = 0
  · simp [get_supportable_anchor_channels, hr]
  · simp only [get_supportable_anchor_channels, if_neg hr]
    rw [num_whole_utxos_eq_countP, num_whole_utxos_eq_countP, hcount, h1, h2, hs]

/-- C2 witness: a concrete permuted pair with no clamping, where the amended
theorem applies. -/
theorem get_supportable_anchor_channels_perm_invariant_witness :
    get_supportable_anchor_channels ⟨1000, 1, false⟩ [⟨0, ⟨9⟩, 0⟩, ⟨1, ⟨5⟩, 2⟩] =
      get_supportable_anchor_channels ⟨1000, 1, false⟩ [⟨1, ⟨5⟩, 2⟩, ⟨0, ⟨9⟩, 0⟩] :=
  get_supportable_anchor_channels_perm_invariant ⟨1000, 1, false⟩ _ _
    (List.Perm.swap _ _ _) (by decide) (by decide)

/-- C3 counterexample: the fractional total accumulated by the allocator does
not equal the sum of the per-UTXO contributions `max(value - fee, 0)`: the
source saturates the running total, not each UTXO's own subtraction. With
fractional UTXOs of value 9 (fee 0) and value 1 (fee 3), the source computes
9 + 1 - 3 = 7 while the per-UTXO formula gives 9 + max(1 - 3, 0) = 9. -/
theorem total_fractional_amount_ne_total_fractional_spec :
    total_fractional_amount ⟨1000, 1, false⟩ [⟨0, ⟨9⟩, 0⟩, ⟨1, ⟨1⟩, 3⟩] ≠
      total_fractional_spec ⟨1000, 1, false⟩ [⟨0, ⟨9⟩, 0⟩, ⟨1, ⟨1⟩, 3⟩] := by
  decide

/-- C3 amended: the fractional total applies the saturating subtraction of
each satisfaction fee to the running total; it equals the sum of the per-UTXO
contributions `value - fee` whenever no fractional UTXO's satisfaction fee
exceeds its value and the fractional values do not overflow `u64`. -/
theorem total_fractional_amount_eq_spec_of_no_underflow
    (context : AnchorChannelReserveContext) (utxos : List Utxo)
    (hfee : ∀ u ∈ utxos, u.output.value < get_reserve_per_channel context →
      fee_wu context.upper_bound_fee_rate u.satisfaction_weight ≤ u.output.value)
    (hsum : ((utxos.filter
        (fun u => decide (u.output.value < get_reserve_per_channel context))).map
        (fun u => u.output.value)).sum ≤ U64MAX) :
    total_fractional_amount context utxos = total_fractional_spec context utxos := by
  have hfee1 : ∀ u ∈ utxos.filter
      (fun u => decide (u.output.value < get_reserve_per_channel context)),
      fee_wu context.upper_bound_fee_rate u.satisfaction_weight ≤ u.output.value := by
    intro u hu
    rw [List.mem_filter] at hu
    exact hfee u hu.1 (by simpa using hu.2)
  rw [total_fractional_amount_eq_foldl,
    satFold_eq_sum _ _ _ hfee1 (by simpa using hsum)]
  simp [total_fractional_spec]

/-- C3 witness: a concrete fractional list with no clamping, where the amended
theorem applies. -/
theorem total_fractional_amount_eq_spec_witness :
    total_fractional_amount ⟨1000, 1, false⟩ [⟨0, ⟨9⟩, 0⟩, ⟨1, ⟨5⟩, 2⟩] =
      total_fractional_spec ⟨1000, 1, false⟩ [⟨0, ⟨9⟩, 0⟩, ⟨1, ⟨5⟩, 2⟩] :=
  total_fractional_amount_eq_spec_of_no_underflow ⟨1000, 1, false⟩ _
    (by decide) (by decide)

/-- C4 counterexample: the claim states that a Taproot wallet never produces a
strictly larger reserve than a Segwit wallet, but a P2TR input plus output
(230 + 172 = 402 wu) outweighs a P2WPKH input plus output (272 + 124 = 396 wu):
the larger 34-byte P2TR output script is counted at four weight units per byte
and outweighs the witness savings. At 1000 sat per kwu and one HTLC the
Taproot reserve is 4367 sats against 4349 sats for Segwit. -/
theorem get_reserve_per_channel_taproot_gt_segwit :
    get_reserve_per_channel ⟨1000, 1, true⟩ > get_reserve_per_channel ⟨1000, 1, false⟩ := by
  decide

/-- C4 amended: the reserve with a Segwit wallet is never strictly larger than
the reserve with a Taproot wallet at the same fee rate and HTLC count. -/
theorem get_reserve_per_channel_segwit_le_taproot (r h : Nat) :
    get_reserve_per_channel ⟨r, h, false⟩ ≤ get_reserve_per_channel ⟨r, h, true⟩ := by
  rw [get_reserve_per_channel_closed_form, get_reserve_per_channel_closed_form]
  simp only [if_true, if_false, Bool.false_eq_true, reduceIte]
  exact fee_wu_le_fee_wu (Nat.mul_le_mul (Nat.le_refl r) (by omega))

/-- C5: `can_support_additional_anchor_channel` answers `true` exactly when
the supportable channel count strictly exceeds the census count described by
the claim: the number of distinct channel identifiers of retrievable monitors
whose channel type supports zero-fee-HTLC anchors and which report at least
one claimable balance, plus the number of listed channels whose channel type
is not yet finalized. -/
theorem can_support_additional_anchor_channel_iff
    (context : AnchorChannelReserveContext) (utxos : List Utxo)
    (mgr : ChannelManagerModel) (mon : ChainMonitorModel) :
    can_support_additional_anchor_channel context utxos mgr mon = some true ↔
      ∃ n, get_supportable_anchor_channels context utxos = some n ∧
        census_spec mgr mon < n := by
  unfold can_support_additional_anchor_channel
  cases hg : get_supportable_anchor_channels context utxos with
  | none => simp
  | some n => simp [num_anchor_channels_eq_census_spec]

/-- C5 witness: the equivalence instantiated at a concrete state. -/
theorem can_support_additional_anchor_channel_iff_witness :
    (can_support_additional_anchor_channel ⟨1000, 1, false⟩ [⟨0, ⟨5000⟩, 0⟩] ⟨[]⟩
        ⟨[], fun _ => none⟩ = some true) ↔
      ∃ n, get_supportable_anchor_channels ⟨1000, 1, false⟩ [⟨0, ⟨5000⟩, 0⟩] = some n ∧
        census_spec ⟨[]⟩ ⟨[], fun _ => none⟩ < n :=
  can_support_additional_anchor_channel_iff _ _ _ _

/-- C6: for a fixed wallet type, the reserve per channel is monotonically
non-decreasing in the upper bound fee rate (HTLC count fixed) and in the
expected accepted HTLC count (fee rate fixed). -/
theorem get_reserve_per_channel_monotone :
    (∀ r1 r2 h : Nat, ∀ tw : Bool, r1 ≤ r2 →
      get_reserve_per_channel ⟨r1, h, tw⟩ ≤ get_reserve_per_channel ⟨r2, h, tw⟩) ∧
    (∀ r h1 h2 : Nat, ∀ tw : Bool, h1 ≤ h2 →
      get_reserve_per_channel ⟨r, h1, tw⟩ ≤ get_reserve_per_channel ⟨r, h2, tw⟩) := by
  constructor
  · intro r1 r2 h tw hr
    rw [get_reserve_per_channel_closed_form, get_reserve_per_channel_closed_form]
    exact fee_wu_le_fee_wu (Nat.mul_le_mul hr (Nat.le_refl _))
  · intro r h1 h2 tw hh
    rw [get_reserve_per_channel_closed_form, get_reserve_per_channel_closed_form]
    refine fee_wu_le_fee_wu (Nat.mul_le_mul (Nat.le_refl r) ?_)
    cases tw <;> simp <;> omega

/-- C6 witness: both monotonicity parts at concrete inputs. -/
theorem get_reserve_per_channel_monotone_witness :
    get_reserve_per_channel ⟨1000, 1, false⟩ ≤ get_reserve_per_channel ⟨2000, 1, false⟩ ∧
    get_reserve_per_channel ⟨1000, 1, false⟩ ≤ get_reserve_per_channel ⟨1000, 2, false⟩ :=
  ⟨get_reserve_per_channel_monotone.1 1000 2000 1 false (by decide),
    get_reserve_per_channel_monotone.2 1000 1 2 false (by decide)⟩

/-- C7: the reserve at 1000 satoshis per 1000 weight units, one expected HTLC
and a Segwit wallet is exactly 4349 satoshis, as the source's test asserts. -/
theorem get_reserve_per_channel_at_1000_sat_per_kwu :
    get_reserve_per_channel ⟨1000, 1, false⟩ = 4349 := by
  decide

/-- C8: the three transaction weight functions return exactly the
protocol-derived literals for each wallet type, independently of the fee rate
and the HTLC count: 717/723 wu for the anchor output spend, 1102/1108 wu for
HTLC-success, 1062/1068 wu for HTLC-timeout (Segwit/Taproot). -/
theorem transaction_weight_literals (r h : Nat) :
    anchor_output_spend_transaction_weight ⟨r, h, false⟩ = 717 ∧
    anchor_output_spend_transaction_weight ⟨r, h, true⟩ = 723 ∧
    htlc_success_transaction_weight ⟨r, h, false⟩ = 1102 ∧
    htlc_success_transaction_weight ⟨r, h, true⟩ = 1108 ∧
    htlc_timeout_transaction_weight ⟨r, h, false⟩ = 1062 ∧
    htlc_timeout_transaction_weight ⟨r, h, true⟩ = 1068 :=
  ⟨rfl, rfl, rfl, rfl, rfl, rfl⟩

/-- C9: a monitor listed by `list_monitors` for which `get_monitor` fails is
skipped: the census of a monitor list containing such an entry equals the
census with the entry removed, wherever the entry sits, and in particular the
census still returns a value rather than surfacing a failure. -/
theorem census_skips_missing_monitor (mgr : ChannelManagerModel)
    (get_mon : Nat → Option MonitorView) (o cid : Nat)
    (ms1 ms2 : List (Nat × Nat)) (h : get_mon o = none) :
    num_anchor_channels mgr ⟨ms1 ++ (o, cid) :: ms2, get_mon⟩ =
      num_anchor_channels mgr ⟨ms1 ++ ms2, get_mon⟩ := by
  unfold num_anchor_channels anchor_channels_with_balance
  simp [List.foldl_append, census_step, h]

/-- C9 witness: a concretely failing monitor entry contributes nothing. -/
theorem census_skips_missing_monitor_witness :
    num_anchor_channels ⟨[]⟩ ⟨[(0, 1), (2, 3)], fun _ => none⟩ =
      num_anchor_channels ⟨[]⟩ ⟨[(2, 3)], fun _ => none⟩ :=
  census_skips_missing_monitor ⟨[]⟩ (fun _ => none) 0 1 [] [(2, 3)] rfl

/-- C10: with a nonzero per-channel reserve, `get_supportable_anchor_channels`
returns a value that is at least the number of UTXOs whose value is greater
than or equal to the reserve: the fractional term only ever adds to the whole
UTXO count. -/
theorem get_supportable_anchor_channels_ge_whole
    (context : AnchorChannelReserveContext) (utxos : List Utxo)
    (h : get_reserve_per_channel context ≠ 0) :
    ∃ n, get_supportable_anchor_channels context utxos = some n ∧
      utxos.countP
        (fun u => decide (get_reserve_per_channel context ≤ u.output.value)) ≤ n := by
  refine ⟨num_whole_utxos context utxos
      + total_fractional_amount context utxos / get_reserve_per_channel context / 2,
    ?_, ?_⟩
  · simp [get_supportable_anchor_channels, h]
  · rw [num_whole_utxos_eq_countP]
    exact Nat.le_add_right _ _

/-- C10 witness: the bound instantiated at a concrete context and UTXO list. -/
theorem get_supportable_anchor_channels_ge_whole_witness :
    get_reserve_per_channel ⟨1000, 1, false⟩ ≠ 0 ∧
    ∃ n, get_supportable_anchor_channels ⟨1000, 1, false⟩ [⟨0, ⟨5000⟩, 0⟩] = some n ∧
      List.countP
        (fun u : Utxo => decide (get_reserve_per_channel ⟨1000, 1, false⟩ ≤ u.output.value))
        [⟨0, ⟨5000⟩, 0⟩] ≤ n :=
  ⟨by decide,
    get_supportable_anchor_channels_ge_whole ⟨1000, 1, false⟩ _ (by decide)⟩
